import Mathlib

/-!
# Verification of the `nameof` path utility

A shallow embedding of `src/index.ts`: a selector-capture engine (`proxyMagic`
/ `nameof`) that records property-access chains as string paths, and two
path accessors (`get` / `set`) that replay a path against a plain data object.

JavaScript values are modelled as finite trees: an object is an ordered list
of own string-keyed properties (JS preserves insertion order for string keys).
Plain objects inherit from `Object.prototype`; the `in` operator and member
reads (`object[key]`) consult the prototype chain when the key is not an own
property, so the embedding carries an explicit model of `Object.prototype`'s
(function-valued) members.  Accessor properties such as `__proto__` and
aliased/cyclic object graphs are outside the tree model.
-/

set_option autoImplicit false

namespace Nameof

/-- The JS values relevant to the library: `undefined`, `null`, primitives,
function values (`typeof` is `"function"`, not `"object"`), and plain objects
given by their ordered list of own properties. -/
inductive JSValue where
  | undefined
  | null
  | num (n : Int)
  | str (s : String)
  | bool (b : Bool)
  | fn (name : String)
  | obj (props : List (String × JSValue))

/-- Own-property lookup on an object's property list (no prototype). -/
def lookupOwn : List (String × JSValue) → String → Option JSValue
  | [], _ => none
  | (k', v) :: rest, k => if k' = k then some v else lookupOwn rest k

/-- A model of `Object.prototype`, the prototype of every plain object (both
caller-supplied entities and the `{}` containers created by `set` and
`proxyMagic`).  Its data-visible members are all function values. -/
def protoProps : List (String × JSValue) :=
  [("hasOwnProperty", .fn "hasOwnProperty"),
   ("isPrototypeOf", .fn "isPrototypeOf"),
   ("propertyIsEnumerable", .fn "propertyIsEnumerable"),
   ("toLocaleString", .fn "toLocaleString"),
   ("toString", .fn "toString"),
   ("valueOf", .fn "valueOf")]

/-- The JS `in` operator on a plain object: true when the key is an own
property or is found on the prototype chain. -/
def jsIn (props : List (String × JSValue)) (k : String) : Bool :=
  (lookupOwn props k).isSome || (lookupOwn protoProps k).isSome

/-- The JS member read `object[key]` on a plain object: the own property's
value if present (even when that value is `undefined`), else the prototype's
value, else `undefined`. -/
def readProp (props : List (String × JSValue)) (k : String) : JSValue :=
  (lookupOwn props k).getD ((lookupOwn protoProps k).getD .undefined)

/-- Models `typeof value === "object" && value != null` from the source: in this
model only plain objects qualify (`typeof null` is `"object"` but the
`!= null` conjunct excludes it; functions have `typeof` `"function"`). -/
def isObjectLike : JSValue → Bool
  | .obj _ => true
  | _ => false

/-- The loose-equality test `value == null` from the source: true exactly for
`null` and `undefined` ("nullish"). -/
def isNullish : JSValue → Bool
  | .null => true
  | .undefined => true
  | _ => false

/-- The property list of an object-like value (used under an `isObjectLike`
guard; the default is never reached there). -/
def objProps : JSValue → List (String × JSValue)
  | .obj props => props
  | _ => []

/-- The JS assignment `object[key] = value`: an existing own key keeps its
position in insertion order and gets the new value; a new key is appended. -/
def assign : List (String × JSValue) → String → JSValue → List (String × JSValue)
  | [], k, v => [(k, v)]
  | (k', v') :: rest, k, v =>
      if k' = k then (k', v) :: rest else (k', v') :: assign rest k v

/-- The path overload of `get` from `src/index.ts` (lines 138-155): walk the
path; at each step require `typeof output === "object" && output != null`,
then `key in object` (prototype chain included), then read `object[key]`;
any failure returns `undefined`. -/
def get : JSValue → List String → JSValue
  | v, [] => v
  | .obj props, k :: rest =>
      if jsIn props k then get (readProp props k) rest else .undefined
  | _, _ :: _ => .undefined

/-- The observable outcome of a `set` call: the entity's final own-property
list (mutations up to the return or throw point) and the thrown `TypeError`
message, if any. -/
structure SetOutcome where
  result : List (String × JSValue)
  error : Option String

/-- The thrown message `` `Path [${path}] conflicts with the entity structure.` ``;
JS stringifies the array as its elements joined with commas. -/
def conflictMsg (path : List String) : String :=
  "Path [" ++ String.intercalate "," path ++ "] conflicts with the entity structure."

/-- The loop of `set` from `src/index.ts` (lines 250-266).  `msg` is the
message interpolated at the throw site (the source renders the full `path`
variable there, which the loop never shrinks).  On a non-final element the
source reads `object[key]`: an object-like value is descended into, a nullish
value is replaced by a fresh `{}` that is then descended into (the
assignment happens before the descent, so a later throw leaves it in place),
and anything else throws.  The final element is assigned unconditionally. -/
def setGo (msg : String) : List (String × JSValue) → List String → JSValue → SetOutcome
  | props, [], _ => ⟨props, none⟩
  | props, [k], v => ⟨assign props k v, none⟩
  | props, k :: k₂ :: rest, v =>
      let cur := readProp props k
      if isObjectLike cur then
        let out := setGo msg (objProps cur) (k₂ :: rest) v
        ⟨assign props k (.obj out.result), out.error⟩
      else if isNullish cur then
        let out := setGo msg [] (k₂ :: rest) v
        ⟨assign props k (.obj out.result), out.error⟩
      else
        ⟨props, some msg⟩

/-- The path overload of `set` from `src/index.ts` (lines 247-267). -/
def set (props : List (String × JSValue)) (path : List String) (v : JSValue) : SetOutcome :=
  setGo (conflictMsg path) props path v

/-- Spec-side characterisation of a structural conflict (§4.4, C4): walking
the path elements except the last, a step conflicts when the existing value
read at the key is neither object-like nor nullish; the final element is
never checked. -/
def hasConflict : List (String × JSValue) → List String → Bool
  | _, [] => false
  | _, [_] => false
  | props, k :: k₂ :: rest =>
      let cur := readProp props k
      if isObjectLike cur then hasConflict (objProps cur) (k₂ :: rest)
      else if isNullish cur then hasConflict [] (k₂ :: rest)
      else true

/-- Predicate: `p` resolves from `v` to `w` without hitting any of `get`'s failure
modes: every intermediate value is a non-null object and every key passes
the `in` test. -/
def Resolves : JSValue → List String → JSValue → Prop
  | v, [], w => w = v
  | .obj props, k :: rest, w => jsIn props k = true ∧ Resolves (readProp props k) rest w
  | _, _ :: _, _ => False

/-! ## Lemmas about assignment and lookup -/

theorem lookupOwn_assign_self (props : List (String × JSValue)) (k : String) (v : JSValue) :
    lookupOwn (assign props k v) k = some v := by
  induction props with
  | nil => simp [assign, lookupOwn]
  | cons hd tl ih =>
      obtain ⟨k', v'⟩ := hd
      by_cases h : k' = k <;> simp [assign, lookupOwn, h, ih]

theorem lookupOwn_assign_ne (props : List (String × JSValue)) (k k' : String) (v : JSValue)
    (h : k' ≠ k) : lookupOwn (assign props k v) k' = lookupOwn props k' := by
  induction props with
  | nil => simp [assign, lookupOwn, Ne.symm h]
  | cons hd tl ih =>
      obtain ⟨k'', v'⟩ := hd
      by_cases hk : k'' = k <;> by_cases hk' : k'' = k' <;>
        simp_all [assign, lookupOwn]

theorem jsIn_assign_self (props : List (String × JSValue)) (k : String) (v : JSValue) :
    jsIn (assign props k v) k = true := by
  simp [jsIn, lookupOwn_assign_self]

theorem readProp_assign_self (props : List (String × JSValue)) (k : String) (v : JSValue) :
    readProp (assign props k v) k = v := by
  simp [readProp, lookupOwn_assign_self]

theorem map_fst_assign (props : List (String × JSValue)) (k : String) (v : JSValue) :
    (assign props k v).map Prod.fst =
      if k ∈ props.map Prod.fst then props.map Prod.fst else props.map Prod.fst ++ [k] := by
  induction props with
  | nil => simp [assign]
  | cons hd tl ih =>
      obtain ⟨k', v'⟩ := hd
      by_cases h : k' = k
      · simp [assign, h]
      · simp only [assign, if_neg h, List.map_cons, ih]
        by_cases hmem : k ∈ tl.map Prod.fst <;>
          simp [hmem, Ne.symm h]

/-! ## Lemmas about `setGo` -/

theorem setGo_result_msg (p : List String) : ∀ (props : List (String × JSValue))
    (v : JSValue) (m m' : String), (setGo m props p v).result = (setGo m' props p v).result := by
  induction p with
  | nil => intro props v m m'; rfl
  | cons k rest ih =>
      intro props v m m'
      cases rest with
      | nil => rfl
      | cons k₂ rest' =>
          by_cases hobj : isObjectLike (readProp props k)
          · simp only [setGo, hobj, if_pos]
            rw [ih (objProps (readProp props k)) v m m']
          · by_cases hnul : isNullish (readProp props k)
            · simp only [setGo, hobj, hnul, Bool.false_eq_true, if_neg, if_pos,
                not_false_eq_true]
              rw [ih [] v m m']
            · simp [setGo, hobj, hnul]

theorem setGo_error_none_iff (p : List String) : ∀ (props : List (String × JSValue))
    (v : JSValue) (m : String), (setGo m props p v).error = none ↔ hasConflict props p = false := by
  induction p with
  | nil => intro props v m; simp [setGo, hasConflict]
  | cons k rest ih =>
      intro props v m
      cases rest with
      | nil => simp [setGo, hasConflict]
      | cons k₂ rest' =>
          by_cases hobj : isObjectLike (readProp props k)
          · simp [setGo, hasConflict, hobj, ih]
          · by_cases hnul : isNullish (readProp props k) <;>
              simp [setGo, hasConflict, hobj, hnul, ih]

theorem setGo_error_some_iff (p : List String) : ∀ (props : List (String × JSValue))
    (v : JSValue) (m : String), (setGo m props p v).error = some m ↔ hasConflict props p = true := by
  induction p with
  | nil => intro props v m; simp [setGo, hasConflict]
  | cons k rest ih =>
      intro props v m
      cases rest with
      | nil => simp [setGo, hasConflict]
      | cons k₂ rest' =>
          by_cases hobj : isObjectLike (readProp props k)
          · simp [setGo, hasConflict, hobj, ih]
          · by_cases hnul : isNullish (readProp props k) <;>
              simp [setGo, hasConflict, hobj, hnul, ih]

theorem setGo_roundtrip (p : List String) : ∀ (props : List (String × JSValue))
    (v : JSValue) (m : String), p ≠ [] → (setGo m props p v).error = none →
    get (.obj (setGo m props p v).result) p = v := by
  induction p with
  | nil => intro _ _ _ h _; exact absurd rfl h
  | cons k rest ih =>
      intro props v m _ herr
      cases rest with
      | nil =>
          simp [setGo, get, jsIn_assign_self, readProp_assign_self]
      | cons k₂ rest' =>
          by_cases hobj : isObjectLike (readProp props k)
          · simp only [setGo, hobj, if_pos] at herr ⊢
            simp only [get, jsIn_assign_self, if_pos, readProp_assign_self]
            exact ih _ v m (by simp) herr
          · by_cases hnul : isNullish (readProp props k)
            · simp only [setGo, hobj, hnul, if_neg, if_pos, Bool.false_eq_true,
                not_false_eq_true] at herr ⊢
              simp only [get, jsIn_assign_self, if_pos, readProp_assign_self]
              exact ih _ v m (by simp) herr
            · simp [setGo, hobj, hnul] at herr

/-! ## The selector capture engine (`proxyMagic` / `nameof`)

A selector in the library's supported fragment is a strict chain of property
accesses on the function's argument, each written with `.` or with the
null-propagating `?.`, and each using either a string key or a symbolic key.
`nameof` runs the selector on `proxyMagic([])`: every value the chain meets
is a proxy (an object, hence never nullish, so `?.` never short-circuits);
a string-keyed access pushes the name and yields a fresh proxy over the same
path array, and any other key kind throws a `TypeError`, which propagates
out of `nameof` before it can return the path. -/

/-- A property key as seen by the proxy's `get` trap: a string, or any
non-string key (symbols, indexed here by a number for concreteness). -/
inductive AccessKey where
  | strKey (s : String)
  | symKey (n : Nat)

/-- One access in a selector chain: the key, and whether the access was
written with the null-propagating `?.` operator. -/
structure Access where
  optional : Bool
  key : AccessKey

/-- Whether a proxy produced by `proxyMagic` tests as nullish: it is a
`Proxy` object, so never `null`/`undefined`. -/
def proxyNullish : Bool := false

/-- The message of the `TypeError` thrown by `proxyMagic`'s `get` trap. -/
def nonStringKeyMsg : String := "Entity contains a non-string key type."

/-- Running a selector chain against `proxyMagic` with the accumulated path:
a `?.` access would stop the chain if the current proxy were nullish; a
string key is recorded and the chain continues on a fresh proxy; any other
key throws, aborting the whole derivation. -/
def runSelector : List Access → List String → Except String (List String)
  | [], path => .ok path
  | a :: rest, path =>
      if a.optional && proxyNullish then .ok path
      else
        match a.key with
        | .strKey s => runSelector rest (path ++ [s])
        | .symKey _ => .error nonStringKeyMsg

/-- The function `nameof` from `src/index.ts` (lines 60-65): create an empty path, run
the selector on a proxy bound to it, and return the recorded path (or let
the trap's `TypeError` propagate). -/
def nameof (sel : List Access) : Except String (List String) :=
  runSelector sel []

/-- The name recorded for an access (meaningful for string keys). -/
def accessName (a : Access) : String :=
  match a.key with
  | .strKey s => s
  | .symKey _ => ""

theorem runSelector_strings (sel : List Access) : ∀ acc : List String,
    (∀ a ∈ sel, ∃ s, a.key = .strKey s) →
    runSelector sel acc = .ok (acc ++ sel.map accessName) := by
  induction sel with
  | nil => intro acc _; simp [runSelector]
  | cons a rest ih =>
      intro acc h
      obtain ⟨s, hs⟩ := h a (by simp)
      simp only [runSelector, proxyNullish, Bool.and_false, Bool.false_eq_true, if_neg,
        not_false_eq_true, hs, List.map_cons]
      rw [ih (acc ++ [s]) (fun b hb => h b (List.mem_cons_of_mem a hb))]
      simp [accessName, hs]

theorem runSelector_sym (sel : List Access) : ∀ acc : List String,
    (∃ a ∈ sel, ∃ n, a.key = .symKey n) →
    runSelector sel acc = .error nonStringKeyMsg := by
  induction sel with
  | nil => intro acc h; simp at h
  | cons a rest ih =>
      intro acc h
      cases hk : a.key with
      | symKey n => simp [runSelector, proxyNullish, hk]
      | strKey s =>
          obtain ⟨b, hb, n, hbk⟩ := h
          rcases List.mem_cons.mp hb with hba | hbr
          · rw [hba, hk] at hbk; exact absurd hbk (by simp)
          · simp only [runSelector, proxyNullish, Bool.and_false, Bool.false_eq_true,
              if_neg, not_false_eq_true, hk]
            exact ih (acc ++ [s]) ⟨b, hbr, n, hbk⟩

theorem runSelector_keys_only (s₁ : List Access) : ∀ (s₂ : List Access) (acc : List String),
    s₁.map Access.key = s₂.map Access.key → runSelector s₁ acc = runSelector s₂ acc := by
  induction s₁ with
  | nil =>
      intro s₂ acc h
      rw [List.eq_nil_of_map_eq_nil h.symm]
  | cons a r ih =>
      intro s₂ acc h
      cases s₂ with
      | nil => simp at h
      | cons b r₂ =>
          simp only [List.map_cons, List.cons.injEq] at h
          simp only [runSelector, proxyNullish, Bool.and_false, Bool.false_eq_true, if_neg,
            not_false_eq_true, ← h.1]
          cases hk : a.key with
          | strKey s => exact ih r₂ (acc ++ [s]) h.2
          | symKey n => rfl

/-! ## Result-shape lemmas for `set` -/

theorem set_result_nullish (props : List (String × JSValue)) (k : String) (rest : List String)
    (v : JSValue) (hne : rest ≠ []) (hnul : isNullish (readProp props k) = true) :
    (set props (k :: rest) v).result = assign props k (.obj ((set [] rest v).result)) := by
  cases rest with
  | nil => exact absurd rfl hne
  | cons k₂ rest' =>
      have hobj : isObjectLike (readProp props k) = false := by
        cases hcur : readProp props k <;> simp_all [isObjectLike, isNullish]
      simp only [set, setGo, hobj, hnul, Bool.false_eq_true, if_neg, if_pos, not_false_eq_true]
      rw [setGo_result_msg (k₂ :: rest') [] v (conflictMsg (k :: k₂ :: rest'))
        (conflictMsg (k₂ :: rest'))]

theorem set_result_descend (props : List (String × JSValue)) (k : String) (rest : List String)
    (v : JSValue) (inner : List (String × JSValue)) (hne : rest ≠ [])
    (hcur : readProp props k = .obj inner) :
    (set props (k :: rest) v).result = assign props k (.obj ((set inner rest v).result)) := by
  cases rest with
  | nil => exact absurd rfl hne
  | cons k₂ rest' =>
      simp only [set, setGo, hcur, isObjectLike, if_pos, objProps]
      rw [setGo_result_msg (k₂ :: rest') inner v (conflictMsg (k :: k₂ :: rest'))
        (conflictMsg (k₂ :: rest'))]

theorem set_result_cases (props : List (String × JSValue)) (k : String) (rest : List String)
    (v : JSValue) : (set props (k :: rest) v).result = props
    ∨ ∃ w, (set props (k :: rest) v).result = assign props k w := by
  cases rest with
  | nil => exact Or.inr ⟨v, rfl⟩
  | cons k₂ rest' =>
      by_cases hobj : isObjectLike (readProp props k)
      · refine Or.inr ⟨.obj (setGo (conflictMsg (k :: k₂ :: rest'))
          (objProps (readProp props k)) (k₂ :: rest') v).result, ?_⟩
        simp [set, setGo, hobj]
      · by_cases hnul : isNullish (readProp props k)
        · refine Or.inr ⟨.obj (setGo (conflictMsg (k :: k₂ :: rest')) [] (k₂ :: rest') v).result, ?_⟩
          simp [set, setGo, hobj, hnul]
        · exact Or.inl (by simp [set, setGo, hobj, hnul])

/-! ## The claims -/

/-- C1 (counterexample): the read round-trip fails on the empty path. With
`e = {}`, `p = []`, `v = 1`, `set` returns without error (the loop body never
runs), yet `get` on the mutated entity returns the entity itself, not `1`. -/
theorem set_get_roundtrip_fails_on_empty_path :
    (set [] [] (.num 1)).error = none
    ∧ get (.obj (set [] [] (.num 1)).result) [] ≠ .num 1 := by
  exact ⟨rfl, by simp [set, setGo, get]⟩

/-- C1 (amended): for every entity, every NON-EMPTY path, and every value, if
`set` returns without raising an error then a subsequent `get` on the mutated
entity returns the written value. -/
theorem set_get_roundtrip_nonempty (props : List (String × JSValue)) (p : List String)
    (v : JSValue) (hp : p ≠ []) (h : (set props p v).error = none) :
    get (.obj (set props p v).result) p = v :=
  setGo_roundtrip p props v (conflictMsg p) hp h

/-- C1 witness: the amended round-trip at `e = {}`, `p = ["a"]`, `v = 5`. -/
theorem set_get_roundtrip_nonempty_witness :
    (set [] ["a"] (.num 5)).error = none
    ∧ get (.obj (set [] ["a"] (.num 5)).result) ["a"] = .num 5 :=
  ⟨rfl, set_get_roundtrip_nonempty [] ["a"] (.num 5) (by decide) rfl⟩

/-- C2 (counterexample): a property that exists only on the prototype chain is
NOT reported absent: `get({}, ["toString"])` finds the inherited `toString`
function via the `in` operator and returns it instead of `undefined`. -/
theorem get_prototype_property_not_absent :
    get (.obj []) ["toString"] = .fn "toString"
    ∧ get (.obj []) ["toString"] ≠ .undefined :=
  ⟨rfl, by simp [get, jsIn, lookupOwn, protoProps, readProp]⟩

/-- C2 (amended): during `get`'s traversal on an object-like value, the code
tests `key in object`, which consults the prototype chain: a key that is
neither an own property nor a prototype property stops the traversal with
`undefined`, while a property that exists only on the prototype chain is
found and its (prototype) value is used. -/
theorem get_stops_iff_key_not_in (props : List (String × JSValue)) (k : String) :
    (jsIn props k = false → get (.obj props) [k] = .undefined)
    ∧ (∀ w, lookupOwn props k = none → lookupOwn protoProps k = some w →
        get (.obj props) [k] = w) := by
  constructor
  · intro h; simp [get, h]
  · intro w h₁ h₂; simp [get, jsIn, readProp, h₁, h₂]

/-- C2 witness: on the empty object, `get` reports a never-present key absent
but finds the prototype-only key `valueOf`. -/
theorem get_stops_iff_key_not_in_witness :
    get (.obj []) ["nope"] = .undefined ∧ get (.obj []) ["valueOf"] = .fn "valueOf" :=
  ⟨(get_stops_iff_key_not_in [] "nope").1 (by decide),
   (get_stops_iff_key_not_in [] "valueOf").2 (.fn "valueOf") rfl rfl⟩

/-- C3: `get` never raises an error; for every entity and path either the
path fully resolves (and `get` returns the resolved value) or `get` returns
the absent sentinel `undefined` — there is no third outcome. -/
theorem get_resolves_or_undefined (p : List String) (e : JSValue) :
    Resolves e p (get e p) ∨ get e p = JSValue.undefined := by
  induction p generalizing e with
  | nil => exact Or.inl (by simp [Resolves, get])
  | cons k rest ih =>
      cases e with
      | obj props =>
          by_cases h : jsIn props k = true
          · rcases ih (readProp props k) with hr | hu
            · left
              have hget : get (.obj props) (k :: rest) = get (readProp props k) rest := by
                simp [get, h]
              rw [hget]
              simp only [Resolves]
              exact ⟨h, hr⟩
            · right; simp [get, h, hu]
          · right; simp [get, h]
      | undefined => exact Or.inr rfl
      | null => exact Or.inr rfl
      | num n => exact Or.inr rfl
      | str s => exact Or.inr rfl
      | bool b => exact Or.inr rfl
      | fn s => exact Or.inr rfl

/-- C4: `set` raises exactly when the walk over all path elements except the
last reads an existing value that is neither object-like nor nullish; the
raised error message names the full intended path, and a length-1 path never
raises (the final assignment is not conflict-checked). -/
theorem set_conflict_characterisation (props : List (String × JSValue)) (p : List String)
    (v : JSValue) (k : String) :
    ((set props p v).error = none ↔ hasConflict props p = false)
    ∧ ((set props p v).error = some (conflictMsg p) ↔ hasConflict props p = true)
    ∧ (set props [k] v).error = none :=
  ⟨setGo_error_none_iff p props v (conflictMsg p),
   setGo_error_some_iff p props v (conflictMsg p), rfl⟩

/-- C5: when the value read at a non-final key is nullish (the key is absent,
or holds `null`/`undefined`), `set` assigns a newly created empty container
there and descends into it; in particular `set({}, ["a","b"], 1)` succeeds
and leaves the entity equal to `{a: {b: 1}}`. -/
theorem set_synthesizes_missing_intermediate (props : List (String × JSValue)) (k : String)
    (rest : List String) (v : JSValue) :
    (rest ≠ [] → isNullish (readProp props k) = true →
      (set props (k :: rest) v).result = assign props k (.obj ((set [] rest v).result)))
    ∧ set [] ["a", "b"] (.num 1) = ⟨[("a", .obj [("b", .num 1)])], none⟩ :=
  ⟨fun hne hnul => set_result_nullish props k rest v hne hnul, rfl⟩

/-- C5 witness: the general creation step applied at `e = {}`, key `"a"`,
remaining path `["b"]`, value `1`. -/
theorem set_synthesizes_missing_intermediate_witness :
    (set [] ["a", "b"] (.num 1)).result = assign [] "a" (.obj ((set [] ["b"] (.num 1)).result)) :=
  (set_synthesizes_missing_intermediate [] "a" ["b"] (.num 1)).1 (by decide) rfl

/-- C6: `set` mutates only along the path: own properties under other keys
keep their values, the key order is preserved (at most the written key is
appended), an existing object-like intermediate is descended into rather than
replaced, and `set({a1: 2}, ["a","b"], 1)` yields the entity
`{a1: 2, a: {b: 1}}` (equal, as a JS object, to `{a: {b: 1}, a1: 2}`). -/
theorem set_preserves_siblings (props : List (String × JSValue)) (k : String)
    (rest : List String) (v : JSValue) :
    (∀ k', k' ≠ k → lookupOwn ((set props (k :: rest) v).result) k' = lookupOwn props k')
    ∧ ((set props (k :: rest) v).result.map Prod.fst = props.map Prod.fst
        ∨ (set props (k :: rest) v).result.map Prod.fst = props.map Prod.fst ++ [k])
    ∧ (∀ inner, rest ≠ [] → readProp props k = .obj inner →
        (set props (k :: rest) v).result = assign props k (.obj ((set inner rest v).result)))
    ∧ (set [("a1", .num 2)] ["a", "b"] (.num 1)).result
        = [("a1", .num 2), ("a", .obj [("b", .num 1)])] := by
  refine ⟨?_, ?_, fun inner hne hcur => set_result_descend props k rest v inner hne hcur, rfl⟩
  · intro k' hk'
    rcases set_result_cases props k rest v with h | ⟨w, h⟩
    · rw [h]
    · rw [h, lookupOwn_assign_ne props k k' w hk']
  · rcases set_result_cases props k rest v with h | ⟨w, h⟩
    · exact Or.inl (by rw [h])
    · rw [h, map_fst_assign]
      by_cases hmem : k ∈ props.map Prod.fst
      · exact Or.inl (by rw [if_pos hmem])
      · exact Or.inr (by rw [if_neg hmem])

/-- C6 witness: sibling `"a1"` survives `set({a1: 2}, ["a","b"], 1)`, and an
existing object-like intermediate is descended into, not replaced. -/
theorem set_preserves_siblings_witness :
    lookupOwn ((set [("a1", .num 2)] ["a", "b"] (.num 1)).result) "a1" = some (.num 2)
    ∧ (set [("a", .obj [("c", .num 7)])] ["a", "b"] (.num 1)).result
        = assign [("a", .obj [("c", .num 7)])] "a" (.obj ((set [("c", .num 7)] ["b"] (.num 1)).result)) :=
  ⟨by rw [(set_preserves_siblings [("a1", .num 2)] "a" ["b"] (.num 1)).1 "a1" (by decide)]; rfl,
   (set_preserves_siblings [("a", .obj [("c", .num 7)])] "a" ["b"] (.num 1)).2.2.1
     [("c", .num 7)] (by decide) rfl⟩

/-- C7: for a selector that is a strict chain of `k` string-named accesses
(each written with `.` or `?.`), `nameof` returns exactly `k` names in access
order, and the result depends only on the accessed keys, never on the
optional-chaining flags (a proxy never tests as nullish). -/
theorem nameof_strict_chain (sel sel₂ : List Access) :
    ((∀ a ∈ sel, ∃ s, a.key = .strKey s) →
      nameof sel = .ok (sel.map accessName) ∧ (sel.map accessName).length = sel.length)
    ∧ (sel.map Access.key = sel₂.map Access.key → nameof sel = nameof sel₂) := by
  constructor
  · intro h
    refine ⟨?_, by simp⟩
    simpa [nameof] using runSelector_strings sel [] h
  · exact runSelector_keys_only sel sel₂ []

/-- C7 witness: the chain `t => t.a?.b` derives `["a","b"]`, and flipping
every optional-chaining flag leaves the derivation unchanged. -/
theorem nameof_strict_chain_witness :
    nameof [⟨false, .strKey "a"⟩, ⟨true, .strKey "b"⟩] = .ok ["a", "b"]
    ∧ nameof [⟨false, .strKey "a"⟩, ⟨true, .strKey "b"⟩]
        = nameof [⟨true, .strKey "a"⟩, ⟨false, .strKey "b"⟩] := by
  constructor
  · exact ((nameof_strict_chain [⟨false, .strKey "a"⟩, ⟨true, .strKey "b"⟩] []).1
      (by
        intro a ha
        rcases List.mem_cons.mp ha with rfl | ha
        · exact ⟨"a", rfl⟩
        rcases List.mem_cons.mp ha with rfl | ha
        · exact ⟨"b", rfl⟩
        · simp at ha)).1
  · exact (nameof_strict_chain [⟨false, .strKey "a"⟩, ⟨true, .strKey "b"⟩]
      [⟨true, .strKey "a"⟩, ⟨false, .strKey "b"⟩]).2 rfl

/-- C8: a selector that accesses any non-string key makes the whole
derivation fail with the `TypeError` message; no partial path reaches the
caller (the recorded prefix is discarded with the throw). -/
theorem nameof_nonstring_key_fails (sel : List Access)
    (h : ∃ a ∈ sel, ∃ n, a.key = .symKey n) :
    nameof sel = .error nonStringKeyMsg :=
  runSelector_sym sel [] h

/-- C8 witness: a chain recording `"a"` and then hitting a symbolic key
yields the error, not the partial path `["a"]`. -/
theorem nameof_nonstring_key_fails_witness :
    nameof [⟨false, .strKey "a"⟩, ⟨false, .symKey 0⟩] = .error nonStringKeyMsg :=
  nameof_nonstring_key_fails [⟨false, .strKey "a"⟩, ⟨false, .symKey 0⟩]
    ⟨⟨false, .symKey 0⟩, by simp, 0, rfl⟩

/-- C9: when `set` raises the structural-conflict error, the entity keeps all
mutations made before the conflicting segment: a container created at a
nullish key remains assigned there, a descended-into container keeps its
recursive mutations, and no rollback occurs; concretely,
`set({}, ["a","toString","z"], 1)` throws but leaves the entity as `{a: {}}`. -/
theorem set_partial_mutation_on_conflict (props : List (String × JSValue)) (k : String)
    (rest : List String) (v : JSValue) :
    (rest ≠ [] → (set props (k :: rest) v).error ≠ none →
      ((isNullish (readProp props k) = true →
          (set props (k :: rest) v).result = assign props k (.obj ((set [] rest v).result)))
        ∧ (∀ inner, readProp props k = .obj inner →
          (set props (k :: rest) v).result = assign props k (.obj ((set inner rest v).result)))))
    ∧ set [] ["a", "toString", "z"] (.num 1)
        = ⟨[("a", .obj [])], some (conflictMsg ["a", "toString", "z"])⟩ :=
  ⟨fun hne _ =>
    ⟨fun hnul => set_result_nullish props k rest v hne hnul,
     fun inner hcur => set_result_descend props k rest v inner hne hcur⟩,
   rfl⟩

/-- C9 witness: the erroring call `set({}, ["a","toString","z"], 1)` leaves
the freshly created container applied at `"a"`. -/
theorem set_partial_mutation_on_conflict_witness :
    (set [] ["a", "toString", "z"] (.num 1)).result
      = assign [] "a" (.obj ((set [] ["toString", "z"] (.num 1)).result)) :=
  ((set_partial_mutation_on_conflict [] "a" ["toString", "z"] (.num 1)).1
    (by decide) (fun h => Option.noConfusion h)).1 rfl

/-- C10: `set` with the empty path is a silent no-op: it raises no error and
leaves the entity's properties entirely unchanged. -/
theorem set_empty_path_noop (props : List (String × JSValue)) (v : JSValue) :
    set props [] v = ⟨props, none⟩ :=
  rfl

end Nameof
